import Mathlib

/-
Verification of the document ingestion pipeline.

Shallow embedding conventions:
* JavaScript strings are modelled as lists of characters (`Str`); `String.data`
  converts a Lean string literal into this representation.
* JavaScript numbers that only ever hold integers are modelled as `Nat`;
  the two floating-point ratio comparisons of the quality gates are modelled
  with exact rational arithmetic (`ℚ`).  For every array length a JS runtime
  can represent (< 2^32) the float comparisons against 0.3, 0.5 and 20 agree
  with the exact rational ones, since the quantities compared are quotients of
  integers below 2^53 and the decision margins exceed the rounding error.
* Thrown exceptions are modelled as `Option`/sum results.
-/

set_option maxHeartbeats 4000000
set_option maxRecDepth 100000

abbrev Str : Type := List Char

/-! ## Quality gates (quality-gates module, `checkExtractionQuality`) -/

/-- Page record consumed by the quality gates (interface `NormalizedPage`). -/
structure NormalizedPage where
  pageNumber : Nat
  content : Str
  charCount : Nat
deriving DecidableEq

/-- Error codes (type `ErrorCode` of the quality-gates module). -/
inductive ErrorCode where
  | extraction_empty
  | extraction_low_quality
  | needs_ocr
  | parse_failed
  | provider_rate_limited
  | timeout
  | unsupported_format
  | file_too_large
  | file_corrupted
deriving DecidableEq

/-- Issues pushed by the quality gates.  The source pushes human-readable
strings with interpolated numbers; they are modelled as one tag per push
site, which preserves the only observable the gates use: the count. -/
inductive QualityIssue where
  | noTextExtracted
  | likelyScanned
  | fewNonEmptyPages
  | lowExtraction
  | lowNonEmptyShare
  | lowDensity
deriving DecidableEq

/-- Result record (interface `QualityResult`). -/
structure QualityResult where
  passed : Bool
  issues : List QualityIssue
  errorCode : Option ErrorCode := none
deriving DecidableEq

/-- `pages.reduce((sum, p) => sum + p.charCount, 0)` -/
def qualityTotalChars (pages : List NormalizedPage) : Nat :=
  (pages.map (·.charCount)).sum

/-- `pages.filter(p => p.charCount > 10).length` -/
def qualityNonEmptyPages (pages : List NormalizedPage) : Nat :=
  (pages.filter (fun p => 10 < p.charCount)).length

/-- `nonEmptyRatio = pageCount > 0 ? nonEmptyPages / pageCount : 0` -/
def qualityNonEmptyShare (pages : List NormalizedPage) : ℚ :=
  if 0 < pages.length then (qualityNonEmptyPages pages : ℚ) / pages.length else 0

/-- `avgCharsPerPage = pageCount > 0 ? totalChars / pageCount : 0` -/
def qualityAvgCharsPerPage (pages : List NormalizedPage) : ℚ :=
  if 0 < pages.length then (qualityTotalChars pages : ℚ) / pages.length else 0

/-- `checkExtractionQuality` of the quality-gates module. -/
def checkExtractionQuality (pages : List NormalizedPage) : QualityResult :=
  let pageCount := pages.length
  let totalChars := qualityTotalChars pages
  let nonEmptyShare := qualityNonEmptyShare pages
  let avgCharsPerPage := qualityAvgCharsPerPage pages
  -- Gate 1: absolute zero extraction
  if totalChars = 0 then
    { passed := false, issues := [.noTextExtracted], errorCode := some .extraction_empty }
  -- Gate 2: needs-OCR detection
  else if 1 < pageCount ∧ totalChars < 100 ∧ nonEmptyShare < 3/10 then
    { passed := false, issues := [.likelyScanned, .fewNonEmptyPages],
      errorCode := some .needs_ocr }
  else
    -- Gate 3: page-count aware minimum thresholds
    let minTotalChars := if pageCount = 1 then 20 else pageCount * 50
    let issues :=
      (if totalChars < minTotalChars then [QualityIssue.lowExtraction] else []) ++
      -- Gate 4: non-empty ratio, only for multi-page documents
      (if 3 < pageCount ∧ nonEmptyShare < 1/2 then [QualityIssue.lowNonEmptyShare] else []) ++
      -- Gate 5: suspicious patterns, multi-page with extremely low average
      (if 5 < pageCount ∧ avgCharsPerPage < 20 then [QualityIssue.lowDensity] else [])
    if 2 ≤ issues.length then
      { passed := false, issues := issues, errorCode := some .extraction_low_quality }
    else
      { passed := true, issues := issues }

/-- Number of issues accumulated by rules 3-5 as the claim states them. -/
def claimIssueCount (pages : List NormalizedPage) : Nat :=
  (if qualityTotalChars pages < (if pages.length = 1 then 20 else 50 * pages.length)
    then 1 else 0) +
  (if 3 < pages.length ∧ qualityNonEmptyShare pages < 1/2 then 1 else 0) +
  (if 5 < pages.length ∧ qualityAvgCharsPerPage pages < 20 then 1 else 0)

/-! ## Error classifier (`classifyError`) -/

/-- All-lowercase rendering, `String(error).toLowerCase()`.  `Char.toLower`
lowercases the code points the matched keywords use identically to JS. -/
def toLowerStr (s : Str) : Str := s.map Char.toLower

/-- `msg.includes(sub)` -/
def strContains (s sub : Str) : Bool := s.tails.any (fun t => sub.isPrefixOf t)

def matchesRateLimited (m : Str) : Bool :=
  strContains m "rate limit".data || strContains m "429".data || strContains m "too many".data

def matchesTimeout (m : Str) : Bool :=
  strContains m "timeout".data || strContains m "timed out".data || strContains m "aborted".data

def matchesCorrupted (m : Str) : Bool :=
  strContains m "invalid pdf".data || strContains m "corrupt".data || strContains m "bad xref".data

def matchesUnsupported (m : Str) : Bool :=
  strContains m "unsupported".data || strContains m "unknown format".data ||
    strContains m "not supported".data

def matchesTooLarge (m : Str) : Bool :=
  strContains m "too large".data || strContains m "size limit".data || strContains m "memory".data

/-- `classifyError` of the quality-gates module; the argument is the string
rendering `String(error)` of the thrown value. -/
def classifyError (error : Str) : ErrorCode :=
  let msg := toLowerStr error
  if matchesRateLimited msg then .provider_rate_limited
  else if matchesTimeout msg then .timeout
  else if matchesCorrupted msg then .file_corrupted
  else if matchesUnsupported msg then .unsupported_format
  else if matchesTooLarge msg then .file_too_large
  else .parse_failed

/-! ## Claim C1 -/

/-- C1: the quality gate applies its rules in order: it fails with
`extraction_empty` iff the total character count is 0; otherwise fails with
`needs_ocr` iff pageCount > 1, totalChars < 100 and the share of pages with
more than 10 characters is < 0.3; otherwise it accumulates the rule 3-5
issues and fails with `extraction_low_quality` iff at least two accumulated,
else passes. -/
theorem checkExtractionQuality_rules_in_order (pages : List NormalizedPage) :
    (((checkExtractionQuality pages).passed = false ∧
        (checkExtractionQuality pages).errorCode = some .extraction_empty) ↔
      qualityTotalChars pages = 0) ∧
    (((checkExtractionQuality pages).passed = false ∧
        (checkExtractionQuality pages).errorCode = some .needs_ocr) ↔
      (qualityTotalChars pages ≠ 0 ∧ 1 < pages.length ∧ qualityTotalChars pages < 100 ∧
        qualityNonEmptyShare pages < 3/10)) ∧
    (((checkExtractionQuality pages).passed = false ∧
        (checkExtractionQuality pages).errorCode = some .extraction_low_quality) ↔
      (qualityTotalChars pages ≠ 0 ∧
        ¬(1 < pages.length ∧ qualityTotalChars pages < 100 ∧
          qualityNonEmptyShare pages < 3/10) ∧
        2 ≤ claimIssueCount pages)) ∧
    ((checkExtractionQuality pages).passed = true ↔
      (qualityTotalChars pages ≠ 0 ∧
        ¬(1 < pages.length ∧ qualityTotalChars pages < 100 ∧
          qualityNonEmptyShare pages < 3/10) ∧
        claimIssueCount pages < 2)) := by
  unfold checkExtractionQuality claimIssueCount
  simp only [Nat.mul_comm 50]
  split_ifs <;> simp_all

/-- Witness for C1 at a concrete input: the empty page list trips gate 1. -/
theorem checkExtractionQuality_rules_in_order_witness :
    (checkExtractionQuality []).passed = false ∧
      (checkExtractionQuality []).errorCode = some .extraction_empty :=
  (checkExtractionQuality_rules_in_order []).1.mpr (by decide)

/-! ## Claim C2 -/

/-- C2: the error classifier is total and ordered: every error string gets
exactly one code, decided by lowercased substring tests in the fixed order
rate-limit, timeout, corrupted, unsupported, too-large, default
`parse_failed`. -/
theorem classifyError_total_ordered (e : Str) :
    (classifyError e = .provider_rate_limited ↔
      matchesRateLimited (toLowerStr e) = true) ∧
    (classifyError e = .timeout ↔
      (matchesRateLimited (toLowerStr e) = false ∧
        matchesTimeout (toLowerStr e) = true)) ∧
    (classifyError e = .file_corrupted ↔
      (matchesRateLimited (toLowerStr e) = false ∧ matchesTimeout (toLowerStr e) = false ∧
        matchesCorrupted (toLowerStr e) = true)) ∧
    (classifyError e = .unsupported_format ↔
      (matchesRateLimited (toLowerStr e) = false ∧ matchesTimeout (toLowerStr e) = false ∧
        matchesCorrupted (toLowerStr e) = false ∧ matchesUnsupported (toLowerStr e) = true)) ∧
    (classifyError e = .file_too_large ↔
      (matchesRateLimited (toLowerStr e) = false ∧ matchesTimeout (toLowerStr e) = false ∧
        matchesCorrupted (toLowerStr e) = false ∧ matchesUnsupported (toLowerStr e) = false ∧
        matchesTooLarge (toLowerStr e) = true)) ∧
    (classifyError e = .parse_failed ↔
      (matchesRateLimited (toLowerStr e) = false ∧ matchesTimeout (toLowerStr e) = false ∧
        matchesCorrupted (toLowerStr e) = false ∧ matchesUnsupported (toLowerStr e) = false ∧
        matchesTooLarge (toLowerStr e) = false)) := by
  unfold classifyError
  cases h1 : matchesRateLimited (toLowerStr e) <;>
    cases h2 : matchesTimeout (toLowerStr e) <;>
      cases h3 : matchesCorrupted (toLowerStr e) <;>
        cases h4 : matchesUnsupported (toLowerStr e) <;>
          cases h5 : matchesTooLarge (toLowerStr e) <;> simp [h1, h2, h3, h4, h5]

/-- Witness for C2 at a concrete input: a string matching none of the
keyword groups classifies as `parse_failed`. -/
theorem classifyError_total_ordered_witness :
    classifyError "boom".data = .parse_failed :=
  (classifyError_total_ordered "boom".data).2.2.2.2.2.mpr (by decide)

/-! ## Semantic chunker (documents-worker chunker, `chunkPagesWithProvenance`) -/

/-- Input page record (interface `PageContent`). -/
structure PageContent where
  pageNumber : Nat
  content : Str
deriving DecidableEq

/-- Output chunk record (interface `ChunkWithProvenance`; the unused optional
`metadata` field is omitted). -/
structure ChunkWithProvenance where
  content : Str
  chunkIndex : Nat
  pageStart : Nat
  pageEnd : Nat
  sentences : List Str
deriving DecidableEq

/-- Chunking configuration (interface `ChunkOptions`) with the source
defaults. -/
structure ChunkOptions where
  maxChunkSize : Nat := 1000
  minChunkSize : Nat := 200
  overlapSize : Nat := 100
deriving DecidableEq

/-- The whitespace class `\s` of the regexes involved, restricted to the
ASCII whitespace characters (document text does not use the exotic Unicode
space code points, which JS would also accept). -/
def isJsWs (c : Char) : Bool :=
  c = ' ' || c = '\t' || c = '\n' || c = '\r' || c = '\x0b' || c = '\x0c'

/-- `String.prototype.trim()` on the modelled character class. -/
def trimChars (s : Str) : Str :=
  ((s.dropWhile isJsWs).reverse.dropWhile isJsWs).reverse

/-- `.replace(/\r\n/g, "\n")` (left-to-right, non-overlapping). -/
def replaceCRLF : Str → Str
  | '\r' :: '\n' :: rest => '\n' :: replaceCRLF rest
  | c :: rest => c :: replaceCRLF rest
  | [] => []

/-- `.replace(/\n{3,}/g, "\n\n")`, streamed: of every maximal newline run the
first two characters are kept and the rest dropped, which is exactly what the
global regex replacement does.  `run` counts the newlines already kept. -/
def collapseNLAux : Str → Nat → Str
  | [], _ => []
  | c :: rest, run =>
    if c = '\n' then
      if 2 ≤ run then collapseNLAux rest run
      else '\n' :: collapseNLAux rest (run + 1)
    else c :: collapseNLAux rest 0

def collapseNewlines (s : Str) : Str := collapseNLAux s 0

/-- `cleanedText`: CRLF normalization, newline-run collapse, trim. -/
def cleanPageText (s : Str) : Str := trimChars (collapseNewlines (replaceCRLF s))

def isSentenceEnd (c : Char) : Bool := c = '.' || c = '!' || c = '?'

/-- The lookahead class `[A-ZÄÖÜ]`. -/
def isBoundaryUpper (c : Char) : Bool :=
  ('A' ≤ c && c ≤ 'Z') || c = 'Ä' || c = 'Ö' || c = 'Ü'

def headBoundaryUpper : Str → Bool
  | [] => false
  | c :: _ => isBoundaryUpper c

/-- Scanner equivalent of `text.split(/(?<=[.!?])\s+(?=[A-ZÄÖÜ])|(?<=[.!?])\n+/)`:
at each position whose previous character is `.`/`!`/`?`, first try the greedy
whitespace run followed by an uppercase lookahead (backtracking inside the run
always fails because every shorter candidate ends before a whitespace
character), then a newline run.  `accRev` is the current piece, reversed, so
its head is the previous character.  `fuel` only forces termination: every
step consumes at least one character, so the initial fuel `text.length` is
never exhausted before the input is. -/
def goSplit : Nat → Str → Str → List Str
  | 0, l, accRev => [accRev.reverse ++ l]
  | _ + 1, [], accRev => [accRev.reverse]
  | fuel + 1, c :: rest, accRev =>
    match accRev with
    | [] => goSplit fuel rest [c]
    | p :: _ =>
      if isSentenceEnd p then
        let wsRun := (c :: rest).takeWhile isJsWs
        let afterWs := (c :: rest).dropWhile isJsWs
        if wsRun ≠ [] ∧ headBoundaryUpper afterWs then
          accRev.reverse :: goSplit fuel afterWs []
        else if (c :: rest).takeWhile (fun d => d = '\n') ≠ [] then
          accRev.reverse :: goSplit fuel ((c :: rest).dropWhile (fun d => d = '\n')) []
        else goSplit fuel rest (c :: accRev)
      else goSplit fuel rest (c :: accRev)

/-- `splitIntoSentences` of the chunker. -/
def splitIntoSentences (text : Str) : List Str :=
  let sentences := ((goSplit text.length text []).map trimChars).filter (· ≠ [])
  if sentences = [] ∧ trimChars text ≠ [] then [trimChars text] else sentences

/-- The backwards accumulation loop of `getOverlapSentences`: walk the
sentences from the end, stop as soon as the running size would exceed the
overlap budget, `unshift` the accepted ones. -/
def overlapLoop (overlapSize : Nat) : List Str → Nat → List Str → List Str
  | [], _, acc => acc
  | s :: rest, total, acc =>
    if overlapSize < total + s.length then acc
    else overlapLoop overlapSize rest (total + s.length) (s :: acc)

def getOverlapSentences (sentences : List Str) (overlapSize : Nat) : List Str :=
  if sentences = [] then [] else overlapLoop overlapSize sentences.reverse 0 []

/-- `sentences.join(' ')`. -/
def joinSpace : List Str → Str
  | [] => []
  | [s] => s
  | s :: rest => s ++ ' ' :: joinSpace rest

/-- `createChunk`. -/
def createChunk (sentences : List Str) (chunkIndex pageStart pageEnd : Nat) :
    ChunkWithProvenance :=
  { content := joinSpace sentences, chunkIndex := chunkIndex,
    pageStart := pageStart, pageEnd := pageEnd, sentences := sentences }

/-- The mutable locals of `chunkPagesWithProvenance`. -/
structure ChunkState where
  chunks : List ChunkWithProvenance
  currentChunkSentences : List Str
  currentChunkSize : Nat
  currentPageStart : Nat
  currentPageEnd : Nat
  chunkIndex : Nat
deriving DecidableEq

def initialChunkState : ChunkState :=
  { chunks := [], currentChunkSentences := [], currentChunkSize := 0,
    currentPageStart := 1, currentPageEnd := 1, chunkIndex := 0 }

/-- Body of the inner `for (const sentence of sentences)` loop. -/
def stepSentence (opts : ChunkOptions) (pageNumber : Nat) (st : ChunkState)
    (sentence : Str) : ChunkState :=
  let sentenceSize := sentence.length
  if opts.maxChunkSize < st.currentChunkSize + sentenceSize ∧
      st.currentChunkSentences ≠ [] then
    let chunk := createChunk st.currentChunkSentences st.chunkIndex
      st.currentPageStart st.currentPageEnd
    let pushed := opts.minChunkSize ≤ chunk.content.length
    let overlapSentences := getOverlapSentences st.currentChunkSentences opts.overlapSize
    { chunks := if pushed then st.chunks ++ [chunk] else st.chunks
      chunkIndex := if pushed then st.chunkIndex + 1 else st.chunkIndex
      currentChunkSentences := overlapSentences ++ [trimChars sentence]
      currentChunkSize := (joinSpace overlapSentences).length + sentenceSize
      currentPageStart := pageNumber
      currentPageEnd := pageNumber }
  else
    { st with
      currentChunkSentences := st.currentChunkSentences ++ [trimChars sentence]
      currentChunkSize := st.currentChunkSize + sentenceSize
      currentPageEnd := pageNumber }

/-- Body of the outer `for (const page of pages)` loop. -/
def stepPage (opts : ChunkOptions) (st : ChunkState) (page : PageContent) :
    ChunkState :=
  if trimChars page.content = [] then st
  else
    (splitIntoSentences (cleanPageText page.content)).foldl
      (stepSentence opts page.pageNumber) st

/-- `chunkPagesWithProvenance` of the documents worker. -/
def chunkPagesWithProvenance (pages : List PageContent)
    (options : ChunkOptions := {}) : List ChunkWithProvenance :=
  let st := pages.foldl (stepPage options) initialChunkState
  if st.currentChunkSentences ≠ [] then
    let chunk := createChunk st.currentChunkSentences st.chunkIndex
      st.currentPageStart st.currentPageEnd
    if options.minChunkSize ≤ chunk.content.length then st.chunks ++ [chunk]
    else st.chunks
  else st.chunks

/-! ### Chunk-list invariants (claim C3) -/

/-- Invariant carried by the chunker state through both loops. -/
def ChunkInv (st : ChunkState) : Prop :=
  st.chunkIndex = st.chunks.length ∧
  st.chunks.map (·.chunkIndex) = List.range st.chunks.length ∧
  (∀ c ∈ st.chunks, c.pageStart ≤ c.pageEnd) ∧
  List.Pairwise (· ≤ ·) (st.chunks.map (·.pageEnd)) ∧
  List.Pairwise (· ≤ ·) (st.chunks.map (·.pageStart)) ∧
  (∀ c ∈ st.chunks, c.pageEnd ≤ st.currentPageEnd) ∧
  (∀ c ∈ st.chunks, c.pageStart ≤ st.currentPageStart) ∧
  st.currentPageStart ≤ st.currentPageEnd

theorem chunkInv_initial : ChunkInv initialChunkState := by
  refine ⟨rfl, rfl, ?_, ?_, ?_, ?_, ?_, le_refl 1⟩ <;> simp [initialChunkState]

/-- Appending the pending chunk to an invariant state's chunk list keeps the
chunk-list half of the invariant. -/
theorem chunkInv_append (st : ChunkState) (h : ChunkInv st) :
    let cs := st.chunks ++ [createChunk st.currentChunkSentences st.chunkIndex
      st.currentPageStart st.currentPageEnd]
    cs.map (·.chunkIndex) = List.range cs.length ∧
    (∀ c ∈ cs, c.pageStart ≤ c.pageEnd) ∧
    List.Pairwise (· ≤ ·) (cs.map (·.pageEnd)) ∧
    List.Pairwise (· ≤ ·) (cs.map (·.pageStart)) := by
  obtain ⟨h1, h2, h3, h4, h5, h6, h7, h8⟩ := h
  refine ⟨?_, ?_, ?_, ?_⟩
  · simp [createChunk, List.range_succ, h2, h1]
  · intro c hc
    rcases List.mem_append.1 hc with hc | hc
    · exact h3 c hc
    · simp only [List.mem_singleton] at hc
      subst hc
      exact h8
  · rw [List.map_append, List.pairwise_append]
    refine ⟨h4, by simp, ?_⟩
    intro a ha b hb
    simp only [List.map_cons, List.map_nil, List.mem_singleton] at hb
    subst hb
    obtain ⟨c, hc, rfl⟩ := List.mem_map.1 ha
    exact h6 c hc
  · rw [List.map_append, List.pairwise_append]
    refine ⟨h5, by simp, ?_⟩
    intro a ha b hb
    simp only [List.map_cons, List.map_nil, List.mem_singleton] at hb
    subst hb
    obtain ⟨c, hc, rfl⟩ := List.mem_map.1 ha
    exact h7 c hc

theorem stepSentence_inv (opts : ChunkOptions) (p : Nat) (st : ChunkState) (s : Str)
    (h : ChunkInv st) (hs : st.currentPageStart ≤ p) (he : st.currentPageEnd ≤ p) :
    ChunkInv (stepSentence opts p st s) ∧
      (stepSentence opts p st s).currentPageStart ≤ p ∧
      (stepSentence opts p st s).currentPageEnd ≤ p := by
  have happ := chunkInv_append st h
  obtain ⟨h1, h2, h3, h4, h5, h6, h7, h8⟩ := h
  obtain ⟨g1, g2, g3, g4⟩ := happ
  unfold stepSentence
  by_cases hc : opts.maxChunkSize < st.currentChunkSize + s.length ∧
      st.currentChunkSentences ≠ []
  · rw [if_pos hc]
    by_cases hp : opts.minChunkSize ≤ (createChunk st.currentChunkSentences
        st.chunkIndex st.currentPageStart st.currentPageEnd).content.length
    · simp only [createChunk] at hp
      simp only [createChunk, if_pos hp]
      refine ⟨⟨?_, g1, g2, g3, g4, ?_, ?_, le_refl p⟩, le_refl p, le_refl p⟩
      · simp [h1, createChunk]
      · intro c hc'
        rcases List.mem_append.1 hc' with hc' | hc'
        · exact le_trans (h6 c hc') he
        · simp only [List.mem_singleton] at hc'
          subst hc'
          exact he
      · intro c hc'
        rcases List.mem_append.1 hc' with hc' | hc'
        · exact le_trans (h7 c hc') hs
        · simp only [List.mem_singleton] at hc'
          subst hc'
          exact hs
    · simp only [createChunk] at hp
      simp only [createChunk, if_neg hp]
      exact ⟨⟨h1, h2, h3, h4, h5, fun c hc' => le_trans (h6 c hc') he,
        fun c hc' => le_trans (h7 c hc') hs, le_refl p⟩, le_refl p, le_refl p⟩
  · rw [if_neg hc]
    exact ⟨⟨h1, h2, h3, h4, h5, fun c hc' => le_trans (h6 c hc') he, h7, hs⟩,
      hs, le_refl p⟩

theorem foldSentences_inv (opts : ChunkOptions) (p : Nat) :
    ∀ (ss : List Str) (st : ChunkState), ChunkInv st →
      st.currentPageStart ≤ p → st.currentPageEnd ≤ p →
      ChunkInv (ss.foldl (stepSentence opts p) st) ∧
        (ss.foldl (stepSentence opts p) st).currentPageStart ≤ p ∧
        (ss.foldl (stepSentence opts p) st).currentPageEnd ≤ p := by
  intro ss
  induction ss with
  | nil => exact fun st h hs he => ⟨h, hs, he⟩
  | cons s rest ih =>
    intro st h hs he
    obtain ⟨h', hs', he'⟩ := stepSentence_inv opts p st s h hs he
    simpa using ih (stepSentence opts p st s) h' hs' he'

theorem stepPage_inv (opts : ChunkOptions) (st : ChunkState) (page : PageContent)
    (h : ChunkInv st) (hs : st.currentPageStart ≤ page.pageNumber)
    (he : st.currentPageEnd ≤ page.pageNumber) :
    ChunkInv (stepPage opts st page) ∧
      (stepPage opts st page).currentPageStart ≤ page.pageNumber ∧
      (stepPage opts st page).currentPageEnd ≤ page.pageNumber := by
  unfold stepPage
  by_cases hempty : trimChars page.content = []
  · rw [if_pos hempty]
    exact ⟨h, hs, he⟩
  · rw [if_neg hempty]
    exact foldSentences_inv opts page.pageNumber _ st h hs he

theorem foldPages_inv (opts : ChunkOptions) :
    ∀ (pages : List PageContent) (st : ChunkState), ChunkInv st →
      (∀ q ∈ pages, st.currentPageStart ≤ q.pageNumber ∧
        st.currentPageEnd ≤ q.pageNumber) →
      List.Pairwise (fun a b => a.pageNumber ≤ b.pageNumber) pages →
      ChunkInv (pages.foldl (stepPage opts) st) := by
  intro pages
  induction pages with
  | nil => exact fun st h _ _ => h
  | cons pg rest ih =>
    intro st h hbound hmono
    obtain ⟨hb1, hb2⟩ := hbound pg (List.mem_cons_self pg rest)
    obtain ⟨h', hs', he'⟩ := stepPage_inv opts st pg h hb1 hb2
    rw [List.pairwise_cons] at hmono
    refine ih (stepPage opts st pg) h' ?_ hmono.2
    intro q hq
    exact ⟨le_trans hs' (hmono.1 q hq), le_trans he' (hmono.1 q hq)⟩

/-- C3 (amended): for page lists whose page numbers are at least 1 and
non-decreasing — what every parser produces — the chunk list has indices
exactly 0..k-1, every chunk satisfies `pageStart ≤ pageEnd`, and both
`pageEnd` and `pageStart` are non-decreasing across chunk indices. -/
theorem chunkPagesWithProvenance_provenance (pages : List PageContent)
    (opts : ChunkOptions)
    (hmono : List.Pairwise (fun a b => a.pageNumber ≤ b.pageNumber) pages)
    (hpos : ∀ p ∈ pages, 1 ≤ p.pageNumber) :
    (chunkPagesWithProvenance pages opts).map (·.chunkIndex) =
      List.range (chunkPagesWithProvenance pages opts).length ∧
    (∀ c ∈ chunkPagesWithProvenance pages opts, c.pageStart ≤ c.pageEnd) ∧
    List.Pairwise (· ≤ ·) ((chunkPagesWithProvenance pages opts).map (·.pageEnd)) ∧
    List.Pairwise (· ≤ ·) ((chunkPagesWithProvenance pages opts).map (·.pageStart)) := by
  have hfold : ChunkInv (pages.foldl (stepPage opts) initialChunkState) := by
    refine foldPages_inv opts pages initialChunkState chunkInv_initial ?_ hmono
    intro q hq
    exact ⟨hpos q hq, hpos q hq⟩
  unfold chunkPagesWithProvenance
  set st := pages.foldl (stepPage opts) initialChunkState with hst
  obtain ⟨h1, h2, h3, h4, h5, h6, h7, h8⟩ := hfold
  have happ := chunkInv_append st ⟨h1, h2, h3, h4, h5, h6, h7, h8⟩
  obtain ⟨g1, g2, g3, g4⟩ := happ
  by_cases hne : st.currentChunkSentences ≠ []
  · rw [if_pos hne]
    by_cases hmin : opts.minChunkSize ≤ (createChunk st.currentChunkSentences
        st.chunkIndex st.currentPageStart st.currentPageEnd).content.length
    · rw [if_pos hmin]
      exact ⟨g1, g2, g3, g4⟩
    · rw [if_neg hmin]
      exact ⟨h2, h3, h4, h5⟩
  · rw [if_neg hne]
    exact ⟨h2, h3, h4, h5⟩

/-- Witness for C3 at a concrete input: two properly numbered pages of 140
characters each produce chunks satisfying all four invariants. -/
theorem chunkPagesWithProvenance_provenance_witness :
    ((chunkPagesWithProvenance [⟨1, List.replicate 140 'a'⟩, ⟨2, List.replicate 140 'b'⟩]
        {}).map (·.chunkIndex) =
      List.range (chunkPagesWithProvenance [⟨1, List.replicate 140 'a'⟩,
        ⟨2, List.replicate 140 'b'⟩] {}).length) ∧
    (∀ c ∈ chunkPagesWithProvenance [⟨1, List.replicate 140 'a'⟩,
        ⟨2, List.replicate 140 'b'⟩] {}, c.pageStart ≤ c.pageEnd) :=
  ⟨(chunkPagesWithProvenance_provenance _ {} (by decide) (by decide)).1,
    (chunkPagesWithProvenance_provenance _ {} (by decide) (by decide)).2.1⟩

/-- Counterexample for C3 as stated: the claim quantifies over every input
page list, but a single page numbered 0 long enough to be emitted yields the
chunk `(pageStart, pageEnd) = (1, 0)`, violating `pageStart ≤ pageEnd`
(`currentPageStart` is initialized to the constant 1, `currentPageEnd` tracks
the page's own number 0). -/
theorem chunkPagesWithProvenance_pageOrder_counterexample :
    (chunkPagesWithProvenance [⟨0, List.replicate 250 'a'⟩] {}).map
      (fun c => (c.pageStart, c.pageEnd)) = [(1, 0)] := by decide

/-! ### Minimum chunk size (claim C4) -/

theorem stepSentence_min_size (opts : ChunkOptions) (p : Nat) (st : ChunkState)
    (s : Str) (h : ∀ c ∈ st.chunks, opts.minChunkSize ≤ c.content.length) :
    ∀ c ∈ (stepSentence opts p st s).chunks, opts.minChunkSize ≤ c.content.length := by
  unfold stepSentence
  by_cases hc : opts.maxChunkSize < st.currentChunkSize + s.length ∧
      st.currentChunkSentences ≠ []
  · rw [if_pos hc]
    by_cases hp : opts.minChunkSize ≤ (createChunk st.currentChunkSentences
        st.chunkIndex st.currentPageStart st.currentPageEnd).content.length
    · simp only [createChunk] at hp
      simp only [createChunk, if_pos hp]
      intro c hc'
      rcases List.mem_append.1 hc' with hc' | hc'
      · exact h c hc'
      · simp only [List.mem_singleton] at hc'
        subst hc'
        exact hp
    · simp only [createChunk] at hp
      simp only [createChunk, if_neg hp]
      exact h
  · rw [if_neg hc]
    exact h

theorem foldSentences_min_size (opts : ChunkOptions) (p : Nat) :
    ∀ (ss : List Str) (st : ChunkState),
      (∀ c ∈ st.chunks, opts.minChunkSize ≤ c.content.length) →
      ∀ c ∈ (ss.foldl (stepSentence opts p) st).chunks,
        opts.minChunkSize ≤ c.content.length := by
  intro ss
  induction ss with
  | nil => exact fun st h => h
  | cons s rest ih =>
    intro st h
    simpa using ih (stepSentence opts p st s) (stepSentence_min_size opts p st s h)

theorem foldPages_min_size (opts : ChunkOptions) :
    ∀ (pages : List PageContent) (st : ChunkState),
      (∀ c ∈ st.chunks, opts.minChunkSize ≤ c.content.length) →
      ∀ c ∈ (pages.foldl (stepPage opts) st).chunks,
        opts.minChunkSize ≤ c.content.length := by
  intro pages
  induction pages with
  | nil => exact fun st h => h
  | cons pg rest ih =>
    intro st h
    refine ih (stepPage opts st pg) ?_
    unfold stepPage
    by_cases hempty : trimChars pg.content = []
    · rw [if_pos hempty]
      exact h
    · rw [if_neg hempty]
      exact foldSentences_min_size opts pg.pageNumber _ st h

/-! ### Size accounting for the chunker (claim C4, second half) -/

theorem length_dropWhile_le (p : Char → Bool) (l : Str) :
    (l.dropWhile p).length ≤ l.length := by
  induction l with
  | nil => simp [List.dropWhile]
  | cons c rest ih =>
    by_cases hc : p c
    · simp only [List.dropWhile, hc]
      exact Nat.le_succ_of_le ih
    · simp [List.dropWhile, hc]

theorem trimChars_length_le (s : Str) : (trimChars s).length ≤ s.length := by
  unfold trimChars
  calc ((s.dropWhile isJsWs).reverse.dropWhile isJsWs).reverse.length
      = ((s.dropWhile isJsWs).reverse.dropWhile isJsWs).length := List.length_reverse _
    _ ≤ (s.dropWhile isJsWs).reverse.length := length_dropWhile_le _ _
    _ = (s.dropWhile isJsWs).length := List.length_reverse _
    _ ≤ s.length := length_dropWhile_le _ _

theorem replaceCRLF_length_le (s : Str) : (replaceCRLF s).length ≤ s.length := by
  induction s using replaceCRLF.induct with
  | case1 rest ih => simpa [replaceCRLF] using Nat.le_succ_of_le (Nat.succ_le_succ ih)
  | case2 c rest hne ih => simp_all [replaceCRLF]
  | case3 => simp [replaceCRLF]

theorem collapseNLAux_length_le (s : Str) : ∀ run, (collapseNLAux s run).length ≤ s.length := by
  induction s with
  | nil => simp [collapseNLAux]
  | cons c rest ih =>
    intro run
    by_cases hc : c = '\n'
    · by_cases hr : 2 ≤ run
      · simp only [collapseNLAux, hc, if_pos, hr, if_true]
        exact Nat.le_succ_of_le (ih run)
      · simp only [collapseNLAux, hc, if_pos, hr, if_false]
        simpa using ih (run + 1)
    · simp only [collapseNLAux, if_neg hc]
      simpa using ih 0

theorem cleanPageText_length_le (s : Str) : (cleanPageText s).length ≤ s.length :=
  le_trans (trimChars_length_le _)
    (le_trans (collapseNLAux_length_le _ 0) (replaceCRLF_length_le s))

/-- Budget of a sentence list: its characters plus one separator/boundary
allowance per sentence. -/
def sentenceBudget (ss : List Str) : Nat := (ss.map (fun s => s.length + 1)).sum

theorem sentenceBudget_cons (s : Str) (ss : List Str) :
    sentenceBudget (s :: ss) = s.length + 1 + sentenceBudget ss := by
  simp [sentenceBudget]

/-- The sentence scanner only removes characters: the pieces plus one
boundary character per piece (bar the last) fit in the input. -/
theorem goSplit_budget : ∀ (fuel : Nat) (l accRev : Str),
    sentenceBudget (goSplit fuel l accRev) ≤ l.length + accRev.length + 1 := by
  intro fuel
  induction fuel with
  | zero =>
    intro l accRev
    simp [goSplit, sentenceBudget]
    omega
  | succ fuel ih =>
    intro l accRev
    match l with
    | [] => simp [goSplit, sentenceBudget]
    | c :: rest =>
      match accRev with
      | [] =>
        simpa [goSplit] using le_trans (ih rest [c]) (by simp)
      | p :: accRest =>
        simp only [goSplit]
        by_cases hp : isSentenceEnd p
        · rw [if_pos hp]
          by_cases h1 : (c :: rest).takeWhile isJsWs ≠ [] ∧
              headBoundaryUpper ((c :: rest).dropWhile isJsWs)
          · rw [if_pos h1]
            have hcws : isJsWs c = true := by
              by_cases hcc : isJsWs c = true
              · exact hcc
              · exfalso
                apply h1.1
                have : isJsWs c = false := by
                  revert hcc
                  cases isJsWs c <;> simp
                simp [List.takeWhile, this]
            have hdrop : ((c :: rest).dropWhile isJsWs).length ≤ rest.length := by
              have : (c :: rest).dropWhile isJsWs = rest.dropWhile isJsWs := by
                simp [List.dropWhile, hcws]
              rw [this]
              exact length_dropWhile_le _ _
            have := ih ((c :: rest).dropWhile isJsWs) []
            rw [sentenceBudget_cons]
            simp only [List.length_reverse, List.length_nil] at this ⊢
            simp only [List.length_cons]
            omega
          · rw [if_neg h1]
            by_cases h2 : (c :: rest).takeWhile (fun d => d = '\n') ≠ []
            · rw [if_pos h2]
              have hcnl : c = '\n' := by
                by_cases hcc : c = '\n'
                · exact hcc
                · exfalso
                  apply h2
                  have : (decide (c = '\n')) = false := by simp [hcc]
                  simp [List.takeWhile, this]
              have hdrop : ((c :: rest).dropWhile (fun d => d = '\n')).length ≤
                  rest.length := by
                have hstep : (c :: rest).dropWhile (fun d => d = '\n') =
                    rest.dropWhile (fun d => d = '\n') := by
                  have : (decide (c = '\n')) = true := by simp [hcnl]
                  simp [List.dropWhile, this]
                rw [hstep]
                exact length_dropWhile_le _ _
              have := ih ((c :: rest).dropWhile (fun d => d = '\n')) []
              rw [sentenceBudget_cons]
              simp only [List.length_reverse, List.length_nil] at this ⊢
              simp only [List.length_cons]
              omega
            · rw [if_neg h2]
              have := ih rest (c :: p :: accRest)
              simp only [List.length_cons] at this ⊢
              omega
        · rw [if_neg hp]
          have := ih rest (c :: p :: accRest)
          simp only [List.length_cons] at this ⊢
          omega

/-- Mapping `trim` and filtering empties only shrinks the budget. -/
theorem trimFilter_budget (l : List Str) :
    sentenceBudget ((l.map trimChars).filter (· ≠ [])) ≤ sentenceBudget l := by
  induction l with
  | nil => simp [sentenceBudget]
  | cons s rest ih =>
    simp only [List.map_cons, List.filter_cons]
    by_cases hs : trimChars s = []
    · have hdec : (decide (trimChars s ≠ [])) = false := by simp [hs]
      rw [hdec, if_neg (by simp)]
      rw [sentenceBudget_cons]
      exact le_trans ih (by omega)
    · have hdec : (decide (trimChars s ≠ [])) = true := by simp [hs]
      rw [hdec, if_pos rfl]
      rw [sentenceBudget_cons, sentenceBudget_cons]
      have := trimChars_length_le s
      omega

theorem splitIntoSentences_budget (t : Str) :
    sentenceBudget (splitIntoSentences t) ≤ t.length + 1 := by
  unfold splitIntoSentences
  by_cases h : ((goSplit t.length t []).map trimChars).filter (· ≠ []) = [] ∧
      trimChars t ≠ []
  · rw [if_pos h]
    have := trimChars_length_le t
    simp [sentenceBudget]
    omega
  · rw [if_neg h]
    exact le_trans (trimFilter_budget _)
      (by simpa using goSplit_budget t.length t [])

theorem joinSpace_cons_ne (s : Str) (l : List Str) (h : l ≠ []) :
    joinSpace (s :: l) = s ++ ' ' :: joinSpace l := by
  match l with
  | [] => exact absurd rfl h
  | x :: rest => rfl

theorem joinSpace_append_singleton_le (l : List Str) (s : Str) :
    (joinSpace (l ++ [s])).length ≤ (joinSpace l).length + 1 + s.length := by
  induction l with
  | nil => simp [joinSpace]
  | cons x rest ih =>
    match rest with
    | [] =>
      simp [joinSpace]
      omega
    | y :: rest' =>
      rw [List.cons_append, joinSpace_cons_ne x ((y :: rest') ++ [s]) (by simp),
        joinSpace_cons_ne x (y :: rest') (by simp)]
      simp only [List.length_append, List.length_cons]
      have := ih
      omega

theorem joinSpace_suffix_le (a : List Str) :
    ∀ b : List Str, (joinSpace b).length ≤ (joinSpace (a ++ b)).length := by
  induction a with
  | nil => simp
  | cons x a' ih =>
    intro b
    match h : a' ++ b with
    | [] =>
      have : b = [] := (List.append_eq_nil.1 h).2
      simp [this, joinSpace]
    | y :: rest =>
      rw [List.cons_append, h, joinSpace_cons_ne x (y :: rest) (by simp)]
      have := ih b
      rw [h] at this
      simp only [List.length_append, List.length_cons]
      omega

theorem overlapLoop_suffix (k : Nat) :
    ∀ (rl : List Str) (total : Nat) (acc : List Str),
      ∃ d e, overlapLoop k rl total acc = d ++ acc ∧ rl.reverse = e ++ d := by
  intro rl
  induction rl with
  | nil => exact fun total acc => ⟨[], [], rfl, by simp⟩
  | cons s rest ih =>
    intro total acc
    unfold overlapLoop
    by_cases hb : k < total + s.length
    · rw [if_pos hb]
      exact ⟨[], (s :: rest).reverse, rfl, by simp⟩
    · rw [if_neg hb]
      obtain ⟨d', e', hres, hrev⟩ := ih (total + s.length) (s :: acc)
      refine ⟨d' ++ [s], e', ?_, ?_⟩
      · rw [hres]
        simp
      · simp only [List.reverse_cons, hrev, List.append_assoc]

theorem getOverlapSentences_suffix (l : List Str) (k : Nat) :
    ∃ a, l = a ++ getOverlapSentences l k := by
  unfold getOverlapSentences
  by_cases h : l = []
  · rw [if_pos h]
    exact ⟨l, by simp⟩
  · rw [if_neg h]
    obtain ⟨d, e, hres, hrev⟩ := overlapLoop_suffix k l.reverse 0 []
    rw [List.reverse_reverse] at hrev
    exact ⟨e, by rw [hres, List.append_nil, hrev]⟩

theorem getOverlapSentences_join_le (l : List Str) (k : Nat) :
    (joinSpace (getOverlapSentences l k)).length ≤ (joinSpace l).length := by
  obtain ⟨a, ha⟩ := getOverlapSentences_suffix l k
  calc (joinSpace (getOverlapSentences l k)).length
      ≤ (joinSpace (a ++ getOverlapSentences l k)).length := joinSpace_suffix_le a _
    _ = (joinSpace l).length := by rw [← ha]

/-- Invariant for claim C4's empty-output half: no chunk emitted yet, and the
pending sentences join to strictly less than the running budget `B`. -/
def EmptyRunInv (st : ChunkState) (B : Nat) : Prop :=
  st.chunks = [] ∧ (st.currentChunkSentences = [] ∨
    (joinSpace st.currentChunkSentences).length + 1 ≤ B)

theorem emptyRunInv_mono (st : ChunkState) (B B' : Nat) (h : EmptyRunInv st B)
    (hB : B ≤ B') : EmptyRunInv st B' := by
  obtain ⟨h1, h2⟩ := h
  refine ⟨h1, ?_⟩
  rcases h2 with h2 | h2
  · exact Or.inl h2
  · exact Or.inr (le_trans h2 hB)

theorem stepSentence_emptyRun (opts : ChunkOptions) (p : Nat) (st : ChunkState)
    (s : Str) (B : Nat) (h : EmptyRunInv st B) (hB : B ≤ opts.minChunkSize) :
    EmptyRunInv (stepSentence opts p st s) (B + s.length + 1) := by
  obtain ⟨h1, h2⟩ := h
  unfold stepSentence
  by_cases hc : opts.maxChunkSize < st.currentChunkSize + s.length ∧
      st.currentChunkSentences ≠ []
  · rw [if_pos hc]
    have hcur : (joinSpace st.currentChunkSentences).length + 1 ≤ B := by
      rcases h2 with h2 | h2
      · exact absurd h2 hc.2
      · exact h2
    have hguard : ¬ opts.minChunkSize ≤ (createChunk st.currentChunkSentences
        st.chunkIndex st.currentPageStart st.currentPageEnd).content.length := by
      simp only [createChunk]
      omega
    simp only [createChunk] at hguard
    simp only [createChunk, if_neg hguard]
    refine ⟨h1, Or.inr ?_⟩
    dsimp only
    have hover := getOverlapSentences_join_le st.currentChunkSentences opts.overlapSize
    have happ := joinSpace_append_singleton_le
      (getOverlapSentences st.currentChunkSentences opts.overlapSize) (trimChars s)
    have htrim := trimChars_length_le s
    omega
  · rw [if_neg hc]
    refine ⟨h1, Or.inr ?_⟩
    dsimp only
    have happ := joinSpace_append_singleton_le st.currentChunkSentences (trimChars s)
    have htrim := trimChars_length_le s
    have hsingle : joinSpace [trimChars s] = trimChars s := rfl
    rcases h2 with h2 | h2
    · rw [h2]
      simp only [List.nil_append, hsingle]
      omega
    · omega

theorem foldSentences_emptyRun (opts : ChunkOptions) (p : Nat) :
    ∀ (ss : List Str) (st : ChunkState) (B : Nat), EmptyRunInv st B →
      B + sentenceBudget ss ≤ opts.minChunkSize →
      EmptyRunInv (ss.foldl (stepSentence opts p) st) (B + sentenceBudget ss) := by
  intro ss
  induction ss with
  | nil => exact fun st B h _ => by simpa [sentenceBudget] using h
  | cons s rest ih =>
    intro st B h hbound
    rw [sentenceBudget_cons] at hbound ⊢
    have hBle : B ≤ opts.minChunkSize := by
      have := sentenceBudget rest
      omega
    have hstep := stepSentence_emptyRun opts p st s B h hBle
    have := ih (stepSentence opts p st s) (B + s.length + 1) hstep (by omega)
    simp only [List.foldl_cons]
    have harr : B + (s.length + 1 + sentenceBudget rest) =
        B + s.length + 1 + sentenceBudget rest := by omega
    rw [harr]
    exact this

theorem stepPage_emptyRun (opts : ChunkOptions) (st : ChunkState)
    (page : PageContent) (B : Nat) (h : EmptyRunInv st B)
    (hbound : B + page.content.length + 1 ≤ opts.minChunkSize) :
    EmptyRunInv (stepPage opts st page) (B + page.content.length + 1) := by
  unfold stepPage
  by_cases hempty : trimChars page.content = []
  · rw [if_pos hempty]
    exact emptyRunInv_mono st B _ h (by omega)
  · rw [if_neg hempty]
    have hsb : sentenceBudget (splitIntoSentences (cleanPageText page.content)) ≤
        page.content.length + 1 :=
      le_trans (splitIntoSentences_budget _)
        (by have := cleanPageText_length_le page.content; omega)
    have := foldSentences_emptyRun opts page.pageNumber
      (splitIntoSentences (cleanPageText page.content)) st B h (by omega)
    exact emptyRunInv_mono _ _ _ this (by omega)

/-- Budget of a page list: all its characters plus one per page. -/
def pageBudget (pages : List PageContent) : Nat :=
  (pages.map (fun p => p.content.length + 1)).sum

theorem pageBudget_cons (p : PageContent) (pages : List PageContent) :
    pageBudget (p :: pages) = p.content.length + 1 + pageBudget pages := by
  simp [pageBudget]

theorem foldPages_emptyRun (opts : ChunkOptions) :
    ∀ (pages : List PageContent) (st : ChunkState) (B : Nat), EmptyRunInv st B →
      B + pageBudget pages ≤ opts.minChunkSize →
      EmptyRunInv (pages.foldl (stepPage opts) st) (B + pageBudget pages) := by
  intro pages
  induction pages with
  | nil => exact fun st B h _ => by simpa [pageBudget] using h
  | cons pg rest ih =>
    intro st B h hbound
    rw [pageBudget_cons] at hbound ⊢
    have hstep := stepPage_emptyRun opts st pg B h (by
      have : 0 ≤ pageBudget rest := Nat.zero_le _
      omega)
    have := ih (stepPage opts st pg) (B + pg.content.length + 1) hstep (by omega)
    simp only [List.foldl_cons]
    have harr : B + (pg.content.length + 1 + pageBudget rest) =
        B + pg.content.length + 1 + pageBudget rest := by omega
    rw [harr]
    exact this

theorem pageBudget_eq (pages : List PageContent) :
    pageBudget pages = (pages.map (fun p => p.content.length)).sum + pages.length := by
  induction pages with
  | nil => simp [pageBudget]
  | cons p rest ih =>
    rw [pageBudget_cons, ih]
    simp
    omega

/-- C4 (amended): every emitted chunk has content length at least
`minChunkSize`, at a split and at the end of input; and whenever the total
page text plus one joining character per page fits below `minChunkSize`
(so in particular whenever every candidate chunk is necessarily short), the
chunker returns the empty chunk list.  (As stated the claim's final clause
compared only the raw text total against `minChunkSize`; the inter-page
joining spaces must be counted, see the counterexample.) -/
theorem chunkPagesWithProvenance_min_chunk (pages : List PageContent)
    (opts : ChunkOptions) :
    (∀ c ∈ chunkPagesWithProvenance pages opts,
      opts.minChunkSize ≤ c.content.length) ∧
    ((pages.map (fun p => p.content.length)).sum + pages.length ≤ opts.minChunkSize →
      chunkPagesWithProvenance pages opts = []) := by
  constructor
  · intro c hc
    unfold chunkPagesWithProvenance at hc
    have hall : ∀ c ∈ (pages.foldl (stepPage opts) initialChunkState).chunks,
        opts.minChunkSize ≤ c.content.length :=
      foldPages_min_size opts pages initialChunkState (by simp [initialChunkState])
    by_cases hne : (pages.foldl (stepPage opts) initialChunkState).currentChunkSentences ≠ []
    · rw [if_pos hne] at hc
      by_cases hmin : opts.minChunkSize ≤
          (createChunk (pages.foldl (stepPage opts) initialChunkState).currentChunkSentences
            (pages.foldl (stepPage opts) initialChunkState).chunkIndex
            (pages.foldl (stepPage opts) initialChunkState).currentPageStart
            (pages.foldl (stepPage opts) initialChunkState).currentPageEnd).content.length
      · rw [if_pos hmin] at hc
        rcases List.mem_append.1 hc with hc | hc
        · exact hall c hc
        · simp only [List.mem_singleton] at hc
          subst hc
          exact hmin
      · rw [if_neg hmin] at hc
        exact hall c hc
    · rw [if_neg hne] at hc
      exact hall c hc
  · intro hbound
    have hinit : EmptyRunInv initialChunkState 0 := ⟨rfl, Or.inl rfl⟩
    have hrun := foldPages_emptyRun opts pages initialChunkState 0 hinit
      (by rw [pageBudget_eq]; omega)
    obtain ⟨hchunks, hcur⟩ := hrun
    unfold chunkPagesWithProvenance
    by_cases hne : (pages.foldl (stepPage opts) initialChunkState).currentChunkSentences ≠ []
    · rw [if_pos hne]
      have hg : (joinSpace (pages.foldl (stepPage opts)
          initialChunkState).currentChunkSentences).length + 1 ≤ 0 + pageBudget pages := by
        rcases hcur with hcur | hcur
        · exact absurd hcur hne
        · exact hcur
      have hguard : ¬ opts.minChunkSize ≤
          (createChunk (pages.foldl (stepPage opts) initialChunkState).currentChunkSentences
            (pages.foldl (stepPage opts) initialChunkState).chunkIndex
            (pages.foldl (stepPage opts) initialChunkState).currentPageStart
            (pages.foldl (stepPage opts) initialChunkState).currentPageEnd).content.length := by
        simp only [createChunk]
        rw [pageBudget_eq] at hg
        omega
      rw [if_neg hguard]
      exact hchunks
    · rw [if_neg hne]
      exact hchunks

/-- Witness for C4 at a concrete input: a single two-character page is below
every budget, so the default configuration returns no chunks, and the
universally quantified first half holds trivially on that output. -/
theorem chunkPagesWithProvenance_min_chunk_witness :
    chunkPagesWithProvenance [⟨1, ['h', 'i']⟩] {} = [] :=
  (chunkPagesWithProvenance_min_chunk [⟨1, ['h', 'i']⟩] {}).2 (by decide)

/-- 67 pages of two characters each: total text 134 characters. -/
def chunkerShortPages : List PageContent :=
  (List.range 67).map (fun n => ⟨n + 1, ['a', 'b']⟩)

/-- Counterexample for C4 as stated: the claim says a non-empty page list
whose entire text is shorter than `minChunkSize` (default 200) yields no
chunks, but 67 pages of 2 characters (134 total) produce one chunk — the
sentences are joined with one space per boundary, reaching exactly 200. -/
theorem chunkPagesWithProvenance_shortText_counterexample :
    ((chunkerShortPages.map (fun p => p.content.length)).sum = 134 ∧
      134 < (ChunkOptions.mk 1000 200 100).minChunkSize) ∧
    (chunkPagesWithProvenance chunkerShortPages {}).map (·.content.length) = [200] := by
  constructor
  · constructor
    · decide
    · decide
  · decide

/-! ### Whitespace-only pages (claim C10) -/

theorem stepPage_blank (opts : ChunkOptions) (st : ChunkState) (page : PageContent)
    (h : trimChars page.content = []) : stepPage opts st page = st := by
  unfold stepPage
  rw [if_pos h]

theorem foldPages_filter_blank (opts : ChunkOptions) :
    ∀ (pages : List PageContent) (st : ChunkState),
      (pages.filter (fun p => trimChars p.content ≠ [])).foldl (stepPage opts) st =
        pages.foldl (stepPage opts) st := by
  intro pages
  induction pages with
  | nil => exact fun st => rfl
  | cons pg rest ih =>
    intro st
    by_cases hp : trimChars pg.content = []
    · rw [List.filter_cons, if_neg (by simp [hp])]
      rw [List.foldl_cons, stepPage_blank opts st pg hp]
      exact ih st
    · rw [List.filter_cons, if_pos (by simp [hp])]
      rw [List.foldl_cons, List.foldl_cons]
      exact ih (stepPage opts st pg)

/-- C10: the chunker ignores pages whose content is empty or whitespace-only:
its output is exactly the output on the list with those pages removed (so a
blank page contributes no sentences and no provenance), and a list made
entirely of blank pages yields the empty chunk list. -/
theorem chunkPagesWithProvenance_ignores_blank_pages (pages : List PageContent)
    (opts : ChunkOptions) :
    chunkPagesWithProvenance (pages.filter (fun p => trimChars p.content ≠ [])) opts =
      chunkPagesWithProvenance pages opts ∧
    ((∀ p ∈ pages, trimChars p.content = []) →
      chunkPagesWithProvenance pages opts = []) := by
  have hfold := foldPages_filter_blank opts pages initialChunkState
  constructor
  · unfold chunkPagesWithProvenance
    rw [hfold]
  · intro hall
    have hfilter : pages.filter (fun p => trimChars p.content ≠ []) = [] := by
      rw [List.filter_eq_nil_iff]
      intro p hp
      simp [hall p hp]
    have : chunkPagesWithProvenance (pages.filter
        (fun p => trimChars p.content ≠ [])) opts = [] := by
      rw [hfilter]
      simp [chunkPagesWithProvenance, initialChunkState]
    unfold chunkPagesWithProvenance at this ⊢
    rw [hfold] at this
    exact this

/-- Witness for C10 at a concrete input: a list of two whitespace-only pages
chunks to nothing. -/
theorem chunkPagesWithProvenance_ignores_blank_pages_witness :
    chunkPagesWithProvenance [⟨1, [' ', '\t']⟩, ⟨2, ['\n']⟩] {} = [] :=
  (chunkPagesWithProvenance_ignores_blank_pages [⟨1, [' ', '\t']⟩, ⟨2, ['\n']⟩] {}).2
    (by decide)

/-! ## Parsers (documents-worker TXT / CSV / XLSX parsers) -/

/-- `s.split(sep)` for a character predicate; used for `'\n'` splits and,
composed with an empties filter, for `/\s+/` word counting. -/
def splitOnPred (p : Char → Bool) : Str → List Str
  | [] => [[]]
  | c :: rest =>
    let r := splitOnPred p rest
    if p c then [] :: r
    else
      match r with
      | [] => [[c]]
      | piece :: ps => (c :: piece) :: ps

def splitOnChar (sep : Char) : Str → List Str := splitOnPred (fun c => c = sep)

/-- `content.split(/\s+/).filter(Boolean).length`: splitting at every
whitespace character and dropping empty pieces counts exactly the maximal
non-whitespace runs, as the run-based regex split does. -/
def jsWordCount (s : Str) : Nat := ((splitOnPred isJsWs s).filter (· ≠ [])).length

/-- `parts.join(sep)` for a string separator. -/
def joinWithSep (sep : Str) : List Str → Str
  | [] => []
  | [s] => s
  | s :: rest => s ++ sep ++ joinWithSep sep rest

/-- The shared `for (let i = 0; i < items.length; i += size)` pagination loop
of the TXT and CSV parsers: window `idx` (starting at 0) renders to a page
numbered `idx + 1`; windows whose rendered content is empty are skipped but
still advance the index.  `fuel` only forces termination; each step drops
`size = 100 ≥ 1` items, so the initial fuel `items.length + 1` is never
exhausted early. -/
def pagedWindows (size : Nat) (render : List α → Str) :
    Nat → List α → Nat → List PageContent
  | 0, _, _ => []
  | fuel + 1, items, idx =>
    if items.isEmpty then []
    else
      let content := render (items.take size)
      (if content ≠ [] then [⟨idx + 1, content⟩] else []) ++
        pagedWindows size render fuel (items.drop size) (idx + 1)

/-- Output of the TXT parser (`ParsedDocument` with the TXT metadata;
`lineCount` is absent from the empty-file return). -/
structure TxtResult where
  pages : List PageContent
  totalPages : Nat
  totalChars : Nat
  totalWords : Nat
  lineCount : Option Nat
deriving DecidableEq

def LINES_PER_PAGE : Nat := 100

/-- `extractWithTxt` of the documents worker; the argument is the file's
UTF-8 decoding. -/
def extractWithTxt (buffer : Str) : TxtResult :=
  let content := trimChars ((replaceCRLF buffer).map (fun c => if c = '\r' then '\n' else c))
  if content = [] then
    { pages := [], totalPages := 0, totalChars := 0, totalWords := 0, lineCount := none }
  else
    let lines := splitOnChar '\n' content
    let pages := pagedWindows LINES_PER_PAGE
      (fun w => trimChars (joinWithSep ['\n'] w)) (lines.length + 1) lines 0
    { pages := pages, totalPages := pages.length, totalChars := content.length,
      totalWords := jsWordCount content, lineCount := some lines.length }

/-- A parsed CSV record: the row's cells keyed by (trimmed) header name, in
column order, as papaparse's header mode delivers them. -/
abbrev CsvRow : Type := List (Str × Str)

/-- Output of the CSV parser (`ParsedDocument` with the CSV metadata; the
`rowCount`/`columnCount`/`truncated` fields are absent from the no-data
return). -/
structure CsvResult where
  pages : List PageContent
  totalPages : Nat
  totalChars : Nat
  totalWords : Nat
  rowCount : Option Nat
  columnCount : Option Nat
  truncated : Option Bool
deriving DecidableEq

def MAX_ROWS : Nat := 10000

def ROWS_PER_PAGE : Nat := 100

/-- Modelled from the spec: `Papa.parse(csvText, { header: true,
skipEmptyLines: true, preview: MAX_ROWS, transformHeader: trim })` — the
external papaparse call — parses the text into at most `MAX_ROWS` records;
the model receives the full record list the text denotes and applies the
`preview` cap. -/
def csvKeptRows (allRows : List CsvRow) : List CsvRow := allRows.take MAX_ROWS

/-- `Header: value | Header: value | …` with empty fields omitted. -/
def csvRowLine (headers : List Str) (row : CsvRow) : Str :=
  joinWithSep " | ".data ((headers.map (fun h =>
    let value := trimChars ((row.lookup h).getD [])
    if value ≠ [] then some (h ++ ": ".data ++ value) else none)).filterMap id)

def csvRenderPage (headers : List Str) (pageRows : List CsvRow) : Str :=
  joinWithSep ['\n'] ((pageRows.map (csvRowLine headers)).filter (· ≠ []))

/-- `extractWithCsv` of the documents worker, over the record list papaparse
produces (see `csvKeptRows`). -/
def extractWithCsv (headers : List Str) (allRows : List CsvRow) : CsvResult :=
  let rows := csvKeptRows allRows
  if rows.length = 0 then
    { pages := [], totalPages := 0, totalChars := 0, totalWords := 0,
      rowCount := none, columnCount := none, truncated := none }
  else
    let pages := pagedWindows ROWS_PER_PAGE (csvRenderPage headers)
      (rows.length + 1) rows 0
    { pages := pages
      totalPages := pages.length
      totalChars := (pages.map (fun p => p.content.length)).sum
      totalWords := (pages.map (fun p => jsWordCount p.content)).sum
      rowCount := some rows.length
      columnCount := some headers.length
      truncated := some (decide (MAX_ROWS ≤ rows.length)) }

/-- Output of the XLSX parser (`ParsedDocument` with the XLSX metadata;
`sheetInfo` maps each processed sheet name to its kept data-row count and
truncation flag — sheet names are unique in a workbook). -/
structure XlsxResult where
  pages : List PageContent
  totalPages : Nat
  totalChars : Nat
  totalWords : Nat
  sheetCount : Nat
  sheetNames : List Str
  processedSheets : Nat
  sheetInfo : List (Str × Nat × Bool)
deriving DecidableEq

def MAX_ROWS_PER_SHEET : Nat := 5000

/-- The per-sheet accumulator variables of `extractWithXlsx`. -/
structure XlsxState where
  pages : List PageContent
  totalChars : Nat
  totalWords : Nat
  pageNumber : Nat
  sheetInfo : List (Str × Nat × Bool)
deriving DecidableEq

/-- `data.length > MAX_ROWS_PER_SHEET ? data.slice(0, MAX_ROWS_PER_SHEET) : data` -/
def xlsxKeptRows (grid : List (List Str)) : List (List Str) :=
  if MAX_ROWS_PER_SHEET < grid.length then grid.take MAX_ROWS_PER_SHEET else grid

/-- One data row rendered as `Header: value | …`, empty values omitted. -/
def xlsxRowLine (headers : List Str) (row : List Str) : Str :=
  joinWithSep " | ".data ((headers.enum.map (fun ih =>
    let header := trimChars ih.2
    let value := trimChars (row.getD ih.1 [])
    if value ≠ [] then some (header ++ ": ".data ++ value) else none)).filterMap id)

def xlsxRowTexts (headers : List Str) (dataRows : List (List Str)) : List Str :=
  (dataRows.map (xlsxRowLine headers)).filter (· ≠ [])

/-- Body of the `for (const sheetName of workbook.SheetNames)` loop.  The
sheet's grid is the array-of-arrays the external
`XLSX.utils.sheet_to_json(sheet, {header: 1, defval: '', blankrows: false})`
call yields (modelled from the spec: first row headers, blank rows skipped). -/
def processSheet (st : XlsxState) (sheet : Str × List (List Str)) : XlsxState :=
  let data := sheet.2
  if data.length = 0 then st
  else
    let truncated := MAX_ROWS_PER_SHEET < data.length
    let rows := xlsxKeptRows data
    let headers := rows.headD []
    let dataRows := rows.drop 1
    if dataRows.length = 0 then st
    else
      let rowTexts := xlsxRowTexts headers dataRows
      if rowTexts = [] then st
      else
        let content := "[Sheet: ".data ++ sheet.1 ++ "]".data ++
          '\n' :: joinWithSep ['\n'] rowTexts
        { pages := st.pages ++ [⟨st.pageNumber, content⟩]
          totalChars := st.totalChars + content.length
          totalWords := st.totalWords + jsWordCount content
          pageNumber := st.pageNumber + 1
          sheetInfo := st.sheetInfo ++ [(sheet.1, dataRows.length, decide truncated)] }

/-- `extractWithXlsx` of the documents worker, over the named grids the
external workbook reader yields. -/
def extractWithXlsx (sheets : List (Str × List (List Str))) : XlsxResult :=
  let st := sheets.foldl processSheet ⟨[], 0, 0, 1, []⟩
  { pages := st.pages
    totalPages := st.pages.length
    totalChars := st.totalChars
    totalWords := st.totalWords
    sheetCount := sheets.length
    sheetNames := sheets.map (·.1)
    processedSheets := st.sheetInfo.length
    sheetInfo := st.sheetInfo }

/-! ### Page numbering (claim C5) -/

theorem pagedWindows_increasing {α : Type} (size : Nat) (render : List α → Str) :
    ∀ (fuel : Nat) (items : List α) (idx : Nat),
      List.Pairwise (· < ·)
        ((pagedWindows size render fuel items idx).map (·.pageNumber)) ∧
      ∀ q ∈ pagedWindows size render fuel items idx, idx + 1 ≤ q.pageNumber := by
  intro fuel
  induction fuel with
  | zero => simp [pagedWindows]
  | succ fuel ih =>
    intro items idx
    simp only [pagedWindows]
    by_cases hempty : items.isEmpty
    · rw [if_pos hempty]
      simp
    · rw [if_neg hempty]
      obtain ⟨ihp, ihb⟩ := ih (items.drop size) (idx + 1)
      by_cases hc : render (items.take size) ≠ []
      · rw [if_pos hc]
        simp only [List.cons_append, List.nil_append, List.map_cons,
          List.pairwise_cons, List.mem_cons]
        refine ⟨⟨?_, ihp⟩, ?_⟩
        · intro b hb
          obtain ⟨q, hq, rfl⟩ := List.mem_map.1 hb
          have := ihb q hq
          omega
        · intro q hq
          rcases hq with rfl | hq
          · exact le_refl _
          · have := ihb q hq
            omega
      · rw [if_neg hc]
        simp only [List.nil_append]
        refine ⟨ihp, ?_⟩
        intro q hq
        have := ihb q hq
        omega

/-- Invariant of the XLSX per-sheet loop: pages so far are numbered exactly
1..count and the counter is one past. -/
def XlsxPagesInv (st : XlsxState) : Prop :=
  st.pages.map (·.pageNumber) = List.range' 1 st.pages.length ∧
  st.pageNumber = st.pages.length + 1

theorem processSheet_pagesInv (st : XlsxState) (sheet : Str × List (List Str))
    (h : XlsxPagesInv st) : XlsxPagesInv (processSheet st sheet) := by
  obtain ⟨h1, h2⟩ := h
  unfold processSheet
  by_cases hd : sheet.2.length = 0
  · rw [if_pos hd]
    exact ⟨h1, h2⟩
  · rw [if_neg hd]
    by_cases hrows : ((xlsxKeptRows sheet.2).drop 1).length = 0
    · rw [if_pos hrows]
      exact ⟨h1, h2⟩
    · rw [if_neg hrows]
      by_cases htexts : xlsxRowTexts ((xlsxKeptRows sheet.2).headD [])
          ((xlsxKeptRows sheet.2).drop 1) = []
      · rw [if_pos htexts]
        exact ⟨h1, h2⟩
      · rw [if_neg htexts]
        constructor
        · dsimp only
          rw [List.map_append, h1, List.length_append]
          simp only [List.map_cons, List.map_nil, List.length_cons, List.length_nil]
          rw [h2]
          simp [List.range'_concat, Nat.add_comm]
        · dsimp only
          rw [h2]
          simp

theorem foldSheets_pagesInv :
    ∀ (sheets : List (Str × List (List Str))) (st : XlsxState),
      XlsxPagesInv st → XlsxPagesInv (sheets.foldl processSheet st) := by
  intro sheets
  induction sheets with
  | nil => exact fun st h => h
  | cons sh rest ih =>
    intro st h
    exact ih (processSheet st sh) (processSheet_pagesInv st sh h)

/-- C5 (amended): for the synthesizing parsers the page numbers are strictly
increasing and at least 1, and `totalPages` is the number of returned pages;
the XLSX parser's pages are numbered exactly 1..totalPages; but the TXT and
CSV parsers number pages by window index while skipping windows that render
empty, so their numbering can skip values (see the counterexample) and is not
always the contiguous range 1..totalPages the claim states. -/
theorem parser_page_numbers :
    (∀ buffer : Str,
      List.Pairwise (· < ·) ((extractWithTxt buffer).pages.map (·.pageNumber)) ∧
      (∀ p ∈ (extractWithTxt buffer).pages, 1 ≤ p.pageNumber) ∧
      (extractWithTxt buffer).totalPages = (extractWithTxt buffer).pages.length) ∧
    (∀ (headers : List Str) (allRows : List CsvRow),
      List.Pairwise (· < ·)
        ((extractWithCsv headers allRows).pages.map (·.pageNumber)) ∧
      (∀ p ∈ (extractWithCsv headers allRows).pages, 1 ≤ p.pageNumber) ∧
      (extractWithCsv headers allRows).totalPages =
        (extractWithCsv headers allRows).pages.length) ∧
    (∀ sheets : List (Str × List (List Str)),
      (extractWithXlsx sheets).pages.map (·.pageNumber) =
        List.range' 1 (extractWithXlsx sheets).pages.length) := by
  refine ⟨?_, ?_, ?_⟩
  · intro buffer
    unfold extractWithTxt
    by_cases h : trimChars ((replaceCRLF buffer).map
        (fun c => if c = '\r' then '\n' else c)) = []
    · rw [if_pos h]
      simp
    · rw [if_neg h]
      dsimp only
      obtain ⟨hp, hb⟩ := pagedWindows_increasing LINES_PER_PAGE
        (fun w => trimChars (joinWithSep ['\n'] w))
        ((splitOnChar '\n' (trimChars ((replaceCRLF buffer).map
          (fun c => if c = '\r' then '\n' else c)))).length + 1)
        (splitOnChar '\n' (trimChars ((replaceCRLF buffer).map
          (fun c => if c = '\r' then '\n' else c)))) 0
      exact ⟨hp, fun p hps => hb p hps, rfl⟩
  · intro headers allRows
    unfold extractWithCsv
    by_cases h : (csvKeptRows allRows).length = 0
    · rw [if_pos h]
      simp
    · rw [if_neg h]
      dsimp only
      obtain ⟨hp, hb⟩ := pagedWindows_increasing ROWS_PER_PAGE (csvRenderPage headers)
        ((csvKeptRows allRows).length + 1) (csvKeptRows allRows) 0
      exact ⟨hp, fun p hps => hb p hps, rfl⟩
  · intro sheets
    have := foldSheets_pagesInv sheets ⟨[], 0, 0, 1, []⟩ ⟨rfl, rfl⟩
    exact this.1

/-- Witness for C5 at a concrete input: a one-line text file yields the
strictly increasing page-number list `[1]`. -/
theorem parser_page_numbers_witness :
    List.Pairwise (· < ·) ((extractWithTxt ['a']).pages.map (·.pageNumber)) :=
  (parser_page_numbers.1 ['a']).1

/-- One non-blank line, a window of blank lines, then another non-blank
line: lines 0, 100-199 blank except line 0 and line 200. -/
def txtGapBuffer : Str := 'a' :: (List.replicate 200 '\n' ++ ['b'])

/-- Counterexample for C5 as stated: the TXT parser skips the all-blank
second window but keeps numbering by window index, so the page numbers are
`[1, 3]` with `totalPages = 2` — not the gap-free range 1..totalPages the
claim asserts for every parser. -/
theorem extractWithTxt_contiguity_counterexample :
    (extractWithTxt txtGapBuffer).pages.map (·.pageNumber) = [1, 3] ∧
    (extractWithTxt txtGapBuffer).totalPages = 2 ∧
    (extractWithTxt txtGapBuffer).pages.map (·.pageNumber) ≠
      List.range' 1 (extractWithTxt txtGapBuffer).totalPages := by
  refine ⟨by decide, by decide, by decide⟩

/-! ### CSV truncation (claim C7) -/

/-- C7 (amended): the CSV parser retains at most 10 000 data rows, and for a
non-empty input `truncated` is reported exactly when the parse hit the
10 000-row preview cap, i.e. when the input contained at least 10 000 data
rows; the parser cannot see past the cap, so an input of exactly 10 000 rows
also reports `truncated = true` although nothing was dropped (see the
counterexample); inputs with fewer than 10 000 rows report
`truncated = false`. -/
theorem extractWithCsv_truncation (headers : List Str) (allRows : List CsvRow) :
    (csvKeptRows allRows).length ≤ MAX_ROWS ∧
    (allRows ≠ [] →
      ((extractWithCsv headers allRows).truncated = some true ↔
        MAX_ROWS ≤ allRows.length) ∧
      ((extractWithCsv headers allRows).truncated = some false ↔
        allRows.length < MAX_ROWS)) := by
  have hlen : (csvKeptRows allRows).length = min MAX_ROWS allRows.length := by
    simp [csvKeptRows]
  constructor
  · rw [hlen]
    omega
  · intro hne
    have hpos : 0 < allRows.length := List.length_pos.2 hne
    have hnz : ¬ (csvKeptRows allRows).length = 0 := by
      rw [hlen]
      simp only [MAX_ROWS]
      omega
    unfold extractWithCsv
    rw [if_neg hnz]
    dsimp only
    rw [hlen]
    constructor
    · simp only [Option.some_inj, decide_eq_true_eq]
      constructor
      · intro h
        simp only [MAX_ROWS] at h ⊢
        omega
      · intro h
        simp only [MAX_ROWS] at h ⊢
        omega
    · simp only [Option.some_inj, decide_eq_false_iff_not]
      constructor
      · intro h
        simp only [MAX_ROWS] at h ⊢
        omega
      · intro h
        simp only [MAX_ROWS] at h ⊢
        omega

/-- Witness for C7 at a concrete input: a single-row CSV is kept whole and
reports `truncated = false`. -/
theorem extractWithCsv_truncation_witness :
    (extractWithCsv ["h".data] [[("h".data, "x".data)]]).truncated = some false :=
  ((extractWithCsv_truncation ["h".data] [[("h".data, "x".data)]]).2
    (by decide)).2.mpr (by decide)

/-- Exactly 10 000 identical one-column data rows. -/
def csvTenThousandRows : List CsvRow := List.replicate 10000 [("h".data, "x".data)]

/-- Counterexample for C7 as stated: an input of exactly 10 000 data rows
drops nothing, yet the parser reports `truncated = true` — `truncated` tests
`rows.length >= MAX_ROWS` on the capped row list, which cannot distinguish
exactly 10 000 rows from more. -/
theorem extractWithCsv_truncation_counterexample :
    csvTenThousandRows.length = 10000 ∧
    ¬ 10000 < csvTenThousandRows.length ∧
    (extractWithCsv ["h".data] csvTenThousandRows).truncated = some true := by
  have hraw : csvTenThousandRows.length = 10000 := by
    unfold csvTenThousandRows
    rw [List.length_replicate]
  have hlen : (csvKeptRows csvTenThousandRows).length = 10000 := by
    unfold csvKeptRows csvTenThousandRows MAX_ROWS
    rw [List.length_take, List.length_replicate]
    omega
  refine ⟨hraw, by omega, ?_⟩
  unfold extractWithCsv
  rw [if_neg (by rw [hlen]; omega)]
  dsimp only
  rw [hlen]
  rfl

/-! ### XLSX per-sheet cap (claim C8) -/

theorem filter_replicate_pos {α : Type} (p : α → Bool) (a : α) (h : p a = true) :
    ∀ n, (List.replicate n a).filter p = List.replicate n a := by
  intro n
  induction n with
  | zero => rfl
  | succ n ih => simp [List.replicate_succ, List.filter_cons, h, ih]

/-- The non-skipped branch of `processSheet` spelled out: assuming the grid
has a header plus data and renders at least one non-empty line, the sheet
appends one page and one `sheetInfo` entry. -/
theorem processSheet_run (st : XlsxState) (name : Str) (grid : List (List Str))
    (h2 : 2 ≤ grid.length)
    (htexts : xlsxRowTexts ((xlsxKeptRows grid).headD [])
      ((xlsxKeptRows grid).drop 1) ≠ []) :
    (processSheet st (name, grid)).sheetInfo = st.sheetInfo ++
      [(name, ((xlsxKeptRows grid).drop 1).length,
        decide (MAX_ROWS_PER_SHEET < grid.length))] ∧
    (processSheet st (name, grid)).pages = st.pages ++
      [⟨st.pageNumber, "[Sheet: ".data ++ name ++ "]".data ++
        '\n' :: joinWithSep ['\n'] (xlsxRowTexts ((xlsxKeptRows grid).headD [])
          ((xlsxKeptRows grid).drop 1))⟩] := by
  have hkept : (xlsxKeptRows grid).length = min grid.length MAX_ROWS_PER_SHEET := by
    unfold xlsxKeptRows
    by_cases h : MAX_ROWS_PER_SHEET < grid.length
    · rw [if_pos h, List.length_take]
      omega
    · rw [if_neg h]
      omega
  have hdataRows : ((xlsxKeptRows grid).drop 1).length ≠ 0 := by
    rw [List.length_drop, hkept]
    unfold MAX_ROWS_PER_SHEET at *
    omega
  unfold processSheet
  rw [if_neg (by omega : ¬ grid.length = 0)]
  dsimp only
  rw [if_neg hdataRows, if_neg htexts]
  exact ⟨rfl, rfl⟩

/-- C8 (amended): per sheet the XLSX parser keeps at most
`MAX_ROWS_PER_SHEET = 5000` rows including the header row, hence at most
4 999 data rows — one fewer than the claim's "header plus 5 000": a sheet
with at least 4 999 data rows contributes exactly
`min(sheetRows, 5000) - 1` data rows; the truncation flag (rows beyond the
cap existed) is recorded per sheet, and each non-skipped sheet becomes one
page whose content is prefixed with `[Sheet: <name>]`. -/
theorem processSheet_sheet_cap (st : XlsxState) (name : Str) (grid : List (List Str))
    (h2 : 2 ≤ grid.length)
    (htexts : xlsxRowTexts ((xlsxKeptRows grid).headD [])
      ((xlsxKeptRows grid).drop 1) ≠ []) :
    (processSheet st (name, grid)).sheetInfo = st.sheetInfo ++
      [(name, min grid.length MAX_ROWS_PER_SHEET - 1,
        decide (MAX_ROWS_PER_SHEET < grid.length))] ∧
    min grid.length MAX_ROWS_PER_SHEET - 1 ≤ 4999 ∧
    (∃ rest : Str, (processSheet st (name, grid)).pages = st.pages ++
      [⟨st.pageNumber, "[Sheet: ".data ++ name ++ "]".data ++ rest⟩]) := by
  obtain ⟨hinfo, hpages⟩ := processSheet_run st name grid h2 htexts
  have hlen : ((xlsxKeptRows grid).drop 1).length =
      min grid.length MAX_ROWS_PER_SHEET - 1 := by
    rw [List.length_drop]
    congr 1
    unfold xlsxKeptRows
    by_cases h : MAX_ROWS_PER_SHEET < grid.length
    · rw [if_pos h, List.length_take]
      omega
    · rw [if_neg h]
      omega
  refine ⟨by rw [hinfo, hlen], ?_, ⟨_, hpages⟩⟩
  unfold MAX_ROWS_PER_SHEET
  omega

/-- Witness for C8 at a concrete input: a sheet with a header row and one
data row records one kept data row and no truncation. -/
theorem processSheet_sheet_cap_witness :
    (processSheet ⟨[], 0, 0, 1, []⟩ ("S".data, [["h".data], ["x".data]])).sheetInfo =
      [] ++ [("S".data, min ([["h".data], ["x".data]] : List (List Str)).length
        MAX_ROWS_PER_SHEET - 1, decide (MAX_ROWS_PER_SHEET <
          ([["h".data], ["x".data]] : List (List Str)).length))] :=
  (processSheet_sheet_cap ⟨[], 0, 0, 1, []⟩ "S".data [["h".data], ["x".data]]
    (by decide) (by decide)).1

/-- A sheet grid with a header row and exactly 5 000 data rows. -/
def xlsxBigGrid : List (List Str) := ["h".data] :: List.replicate 5000 ["x".data]

/-- Counterexample for C8 as stated: a sheet with 5 000 data rows after the
header should, per the claim, contribute exactly 5 000 data rows; the parser
caps header-plus-data at 5 000 rows, keeps only 4 999 data rows, and records
`(4999, truncated)` in `sheetInfo`. -/
theorem extractWithXlsx_cap_counterexample :
    xlsxBigGrid.length = 5001 ∧
    (extractWithXlsx [("S".data, xlsxBigGrid)]).sheetInfo =
      [("S".data, 4999, true)] ∧
    (4999 : Nat) ≠ 5000 := by
  have hglen : xlsxBigGrid.length = 5001 := by
    unfold xlsxBigGrid
    rw [List.length_cons, List.length_replicate]
  have htake : xlsxKeptRows xlsxBigGrid = ["h".data] :: List.replicate 4999 ["x".data] := by
    unfold xlsxKeptRows
    rw [if_pos (by rw [hglen]; unfold MAX_ROWS_PER_SHEET; omega : MAX_ROWS_PER_SHEET < xlsxBigGrid.length)]
    unfold xlsxBigGrid MAX_ROWS_PER_SHEET
    rw [show (5000 : Nat) = 4999 + 1 from rfl, List.take_succ_cons, List.take_replicate,
      Nat.min_eq_left (by omega)]
  have hdata : (xlsxKeptRows xlsxBigGrid).drop 1 = List.replicate 4999 ["x".data] := by
    rw [htake]
    rfl
  have hhead : (xlsxKeptRows xlsxBigGrid).headD [] = ["h".data] := by
    rw [htake]
    rfl
  have hline : xlsxRowLine ["h".data] ["x".data] = "h: x".data := by decide
  have htexts : xlsxRowTexts ((xlsxKeptRows xlsxBigGrid).headD [])
      ((xlsxKeptRows xlsxBigGrid).drop 1) = List.replicate 4999 "h: x".data := by
    rw [hhead, hdata]
    unfold xlsxRowTexts
    rw [List.map_replicate, hline, filter_replicate_pos _ _ (by decide)]
  have hne : xlsxRowTexts ((xlsxKeptRows xlsxBigGrid).headD [])
      ((xlsxKeptRows xlsxBigGrid).drop 1) ≠ [] := by
    rw [htexts]
    apply List.length_pos.1
    rw [List.length_replicate]
    omega
  obtain ⟨hinfo, _⟩ := processSheet_run ⟨[], 0, 0, 1, []⟩ "S".data xlsxBigGrid
    (by rw [hglen]; omega) hne
  refine ⟨hglen, ?_, by omega⟩
  unfold extractWithXlsx
  rw [List.foldl_cons, List.foldl_nil]
  dsimp only
  rw [hinfo, hdata, List.length_replicate, hglen]
  rfl

/-! ## Document deletion (DELETE /api/documents/[id]) (claim C6) -/

inductive DocStatus where
  | active
  | deleted_pending
  | deleted
deriving DecidableEq

/-- Modelled from the spec: the job status vocabulary of the state machine
(§4.7, also stored in the `ingestion_jobs.status` column); the route's code
itself names only `queued` and `failed`. -/
inductive JobStatus where
  | queued
  | processing
  | retry_ready
  | done
  | failed
  | cancelled
deriving DecidableEq

structure DocumentRec where
  status : DocStatus
deriving DecidableEq

structure IngestionJob where
  documentVersionId : Nat
  status : JobStatus
  errorCode : Option Str
  lastError : Option Str
deriving DecidableEq

/-- The cancellation loop of the DELETE handler: for each of the document's
versions, update to failed/`document_deleted` exactly the jobs whose status
equals `'queued'` (the `eq(ingestionJobs.status, 'queued')` filter). -/
def docDeletedCode : Str := "document_deleted".data

def docDeletedMsg : Str := "Document deleted".data

def cancelJobsForDelete (versionIds : List Nat) (jobs : List IngestionJob) :
    List IngestionJob :=
  jobs.map fun j =>
    if j.documentVersionId ∈ versionIds ∧ j.status = JobStatus.queued then
      { j with
        status := .failed
        errorCode := some docDeletedCode
        lastError := some docDeletedMsg }
    else j

/-- Phase 1 of `DELETE /api/documents/[id]` after the access and existence
checks: no-op when already deleted or pending deletion, else mark the
document `deleted_pending` and run the job-cancellation loop over the
document's version ids. -/
def deleteDocumentRoute (doc : DocumentRec) (versionIds : List Nat)
    (jobs : List IngestionJob) : DocumentRec × List IngestionJob :=
  if doc.status = .deleted ∨ doc.status = .deleted_pending then (doc, jobs)
  else ({ doc with status := .deleted_pending }, cancelJobsForDelete versionIds jobs)

/-- C6, evaluated at the failing input: deleting an active document whose
job sits in the non-terminal status `processing` marks the document
`deleted_pending` but leaves the job

 completely unchanged — no `failed`
status, no `document_deleted` error code — although the route's own comment
says it cancels the jobs "that aren't already done/failed".  Only `queued`
jobs transition (third conjunct). -/
theorem deleteDocumentRoute_nonterminal_bug :
    (deleteDocumentRoute ⟨.active⟩ [7] [⟨7, .processing, none, none⟩]).1.status =
      .deleted_pending ∧
    (deleteDocumentRoute ⟨.active⟩ [7] [⟨7, .processing, none, none⟩]).2 =
      [⟨7, .processing, none, none⟩] ∧
    (deleteDocumentRoute ⟨.active⟩ [7] [⟨7, .queued, none, none⟩]).2 =
      [⟨7, .failed, some docDeletedCode, some docDeletedMsg⟩] := by
  refine ⟨rfl, by decide, by decide⟩

/-! ## Encryption box (`decrypt`) (claim C9) -/

def b64Val (c : Char) : Option Nat :=
  if 'A' ≤ c ∧ c ≤ 'Z' then some (c.toNat - 'A'.toNat)
  else if 'a' ≤ c ∧ c ≤ 'z' then some (c.toNat - 'a'.toNat + 26)
  else if '0' ≤ c ∧ c ≤ '9' then some (c.toNat - '0'.toNat + 52)
  else if c = '+' then some 62
  else if c = '/' then some 63
  else none

def b64Bytes : List Nat → List Nat
  | a :: b :: c :: d :: rest =>
    (a * 4 + b / 16) :: ((b % 16) * 16 + c / 4) :: ((c % 4) * 64 + d) :: b64Bytes rest
  | [a, b] => [a * 4 + b / 16]
  | [a, b, c] => [a * 4 + b / 16, (b % 16) * 16 + c / 4]
  | _ => []

/-- Node's forgiving base64 decoding, `Buffer.from(s, 'base64')`: read up to
the first `=`, ignore characters outside the alphabet, turn each group of
four 6-bit values into three bytes and a trailing group of three (two) into
two bytes (one byte). -/
def b64decode (s : Str) : List Nat :=
  b64Bytes ((s.takeWhile (fun c => ¬ c = '=')).filterMap b64Val)

/-- Modelled from the spec: the Node AES-256-GCM layer — `createDecipheriv`
with `authTagLength: 16`, `setAuthTag`, `update`/`final` — per §4.2 rejects
an IV that is not 12 bytes and a tag that is not 16 bytes, and `gcmOpen`
abstracts authenticated decryption, returning the plaintext exactly when the
tag verifies for the key, IV and ciphertext. -/
def nodeGcmDecrypt (gcmOpen : List Nat → List Nat → List Nat → List Nat → Option Str)
    (key iv tag ct : List Nat) : Option Str :=
  if iv.length = 12 ∧ tag.length = 16 then gcmOpen key iv tag ct else none

/-- `decrypt` of the encryption utility.  A `none` models a throw: every
rejection surfaces to the caller as the one opaque failure channel. -/
def decrypt (gcmOpen : List Nat → List Nat → List Nat → List Nat → Option Str)
    (key : List Nat) (encrypted : Str) : Option Str :=
  let parts := splitOnChar ':' encrypted
  if parts.length = 3 then
    nodeGcmDecrypt gcmOpen key (b64decode (parts.getD 0 []))
      (b64decode (parts.getD 1 [])) (b64decode (parts.getD 2 []))
  else none

/-- C9: for every input string, `decrypt` fails — surfacing only the single
opaque failure, never a plaintext — when the input does not split on the
separator into exactly three fields, when the decoded IV is not 12 bytes,
when the decoded tag is not 16 bytes, or when tag verification fails. -/
theorem decrypt_rejects
    (gcmOpen : List Nat → List Nat → List Nat → List Nat → Option Str)
    (key : List Nat) (s : Str) :
    ((splitOnChar ':' s).length ≠ 3 → decrypt gcmOpen key s = none) ∧
    (∀ ivB tagB ctB, splitOnChar ':' s = [ivB, tagB, ctB] →
      ((b64decode ivB).length ≠ 12 ∨ (b64decode tagB).length ≠ 16 ∨
        gcmOpen key (b64decode ivB) (b64decode tagB) (b64decode ctB) = none) →
      decrypt gcmOpen key s = none) := by
  constructor
  · intro hlen
    unfold decrypt
    rw [if_neg hlen]
  · intro ivB tagB ctB hsplit hbad
    unfold decrypt
    rw [hsplit]
    rw [if_pos (by rfl)]
    have e0 : ([ivB, tagB, ctB].getD 0 []) = ivB := rfl
    have e1 : ([ivB, tagB, ctB].getD 1 []) = tagB := rfl
    have e2 : ([ivB, tagB, ctB].getD 2 []) = ctB := rfl
    rw [e0, e1, e2]
    unfold nodeGcmDecrypt
    rcases hbad with hbad | hbad | hbad
    · rw [if_neg (by simp [hbad])]
    · rw [if_neg (by simp [hbad])]
    · by_cases hok : (b64decode ivB).length = 12 ∧ (b64decode tagB).length = 16
      · rw [if_pos hok]
        simpa using hbad
      · rw [if_neg hok]

/-- An always-succeeding stand-in for authenticated decryption, showing the
rejections below do not come from the oracle. -/
def gcmOpenW : List Nat → List Nat → List Nat → List Nat → Option Str :=
  fun _ _ _ _ => some "p".data

/-- Witness for C9 at a concrete input: a string with no separators is
rejected even when tag verification would always succeed. -/
theorem decrypt_rejects_witness : decrypt gcmOpenW [] "ab".data = none :=
  (decrypt_rejects gcmOpenW [] "ab".data).1 (by decide)
